import Mathlib

/-!
# Verification of the 2D advection kernel (`advection2D.c`)

Shallow embedding of the single-file C program that advects a Gaussian
profile on an `(NX+2) × (NY+2)` grid (one ghost cell per boundary per
axis), with a logarithmic streamwise velocity profile.

Modelling decisions:
* C `float`/`double` arithmetic is idealized as exact rational
  arithmetic (`ℚ`); the transcendental library functions `log`/`exp`
  are abstract parameters `lg ex : ℚ → ℚ`, so every theorem holds for
  an arbitrary interpretation of them.
* The 2D arrays `u` and `dudt` are total functions `ℕ → ℕ → ℚ`
  (out-of-range indices are simply never written).
* Every C loop nest is embedded as a sequential `List.foldl` of
  single-cell writes, in the exact iteration order of the source, so
  that "sequential in-place update equals the two-phase barrier
  semantics" is a real theorem and not a modelling assumption.
-/

namespace Advection2D

/-- A 2D field value array, indexed by `(i, j)`. -/
abbrev Grid := ℕ → ℕ → ℚ

/-- The program's fixed configuration constants (lines 31-58 of
`advection2D.c`). -/
structure Config where
  NX : ℕ
  NY : ℕ
  xmin : ℚ
  xmax : ℚ
  ymin : ℚ
  ymax : ℚ
  x0 : ℚ
  y0 : ℚ
  sigmax : ℚ
  sigmay : ℚ
  bval_left : ℚ
  bval_right : ℚ
  bval_lower : ℚ
  bval_upper : ℚ
  CFL : ℚ
  nsteps : ℕ
  velx : ℚ
  vely : ℚ

/-- The concrete configuration compiled into the program. -/
def theConfig : Config where
  NX := 1000
  NY := 1000
  xmin := 0
  xmax := 30
  ymin := 0
  ymax := 30
  x0 := 3
  y0 := 15
  sigmax := 1
  sigmay := 5
  bval_left := 0
  bval_right := 0
  bval_lower := 0
  bval_upper := 0
  CFL := 0.9
  nsteps := 800
  velx := 1
  vely := 0

/-- Write a single cell of a grid: `g[a][b] = v`. -/
def writeAt (g : Grid) (a b : ℕ) (v : ℚ) : Grid :=
  fun i j => if i = a ∧ j = b then v else g i j

/-- `dx = (xmax-xmin) / NX` (line 71). -/
def dx (c : Config) : ℚ := (c.xmax - c.xmin) / (c.NX : ℚ)

/-- `dy = (ymax-ymin) / NY` (line 72). -/
def dy (c : Config) : ℚ := (c.ymax - c.ymin) / (c.NY : ℚ)

/-- The CFL time step, computed once before stepping (line 77):
`dt = CFL / ( |(0.2/0.41)*log(ymax/1.0)| / dx + |vely| / dy )`. -/
def dt (lg : ℚ → ℚ) (c : Config) : ℚ :=
  c.CFL / (|((0.2 : ℚ) / 0.41) * lg (c.ymax / 1)| / dx c + |c.vely| / dy c)

/-- The streamwise velocity profile: the branch of LOOP 8
(lines 157-162) factored as the spec's `streamwiseVelocity` component:
`(0.2/0.41)*log(y/1.0)` for `y > 1`, else `0`. -/
def streamwiseVelocity (lg : ℚ → ℚ) (y : ℚ) : ℚ :=
  if y > 1 then ((0.2 : ℚ) / 0.41) * lg (y / 1) else 0

/-- The derivative value written by one iteration of LOOP 8
(lines 154-163), exactly as in the source: the velocity coordinate is
`y = j*dy`, and the `y > 1` branch is inlined. -/
def dudtAt (lg : ℚ → ℚ) (c : Config) (u : Grid) (i j : ℕ) : ℚ :=
  if ((j : ℚ) * dy c) > 1 then
    -1 * (((0.2 : ℚ) / 0.41) * lg ((j : ℚ) * dy c / 1) * (u i j - u (i - 1) j) / dx c
      + c.vely * (u i j - u i (j - 1)) / dy c)
  else
    -1 * (0 * (u i j - u (i - 1) j) / dx c + c.vely * (u i j - u i (j - 1)) / dy c)

/-- Cell-centered x coordinate (LOOP 1, line 94): `x[i] = (i - 0.5)*dx`. -/
def xcoord (c : Config) (i : ℕ) : ℚ := ((i : ℚ) - 0.5) * dx c

/-- Cell-centered y coordinate (LOOP 2, line 102): `y[j] = (j - 0.5)*dy`. -/
def ycoord (c : Config) (j : ℕ) : ℚ := ((j : ℚ) - 0.5) * dy c

/-- The axis-generation contract (LOOPs 1/2): `N+2` cell-centered
coordinates `(i - 0.5) * d` with `d = (max-min)/N`. -/
def generateAxis (N : ℕ) (mn mx : ℚ) : List ℚ :=
  (List.range (N + 2)).map (fun i : ℕ => ((i : ℚ) - 0.5) * ((mx - mn) / (N : ℚ)))

/-- The Gaussian value written by one iteration of LOOP 3
(lines 110-112): `exp(-1*((x[i]-x0)²/(2*sigmax²) + (y[j]-y0)²/(2*sigmay²)))`. -/
def gaussAt (ex : ℚ → ℚ) (c : Config) (i j : ℕ) : ℚ :=
  ex (-1 * ((xcoord c i - c.x0) * (xcoord c i - c.x0) / (2 * (c.sigmax * c.sigmax))
    + (ycoord c j - c.y0) * (ycoord c j - c.y0) / (2 * (c.sigmay * c.sigmay))))

/-- LOOP 3 (lines 107-114): initialize every point of the full
`(NX+2) × (NY+2)` array with the Gaussian profile, in source iteration
order. -/
def loop3 (ex : ℚ → ℚ) (c : Config) (u : Grid) : Grid :=
  (List.range (c.NX + 2)).foldl
    (fun g i0 => (List.range (c.NY + 2)).foldl
      (fun g1 j0 => writeAt g1 i0 j0 (gaussAt ex c i0 j0)) g) u

/-- LOOP 6 (lines 134-138): for `j = 0 .. NY+1`, set `u[0][j] = bval_left`
then `u[NX+1][j] = bval_right`. -/
def loop6 (c : Config) (u : Grid) : Grid :=
  (List.range (c.NY + 2)).foldl
    (fun g j0 => writeAt (writeAt g 0 j0 c.bval_left) (c.NX + 1) j0 c.bval_right) u

/-- LOOP 7 (lines 142-146): for `i = 0 .. NX+1`, set `u[i][0] = bval_lower`
then `u[i][NY+1] = bval_upper`.  Runs after LOOP 6 within a step. -/
def loop7 (c : Config) (u : Grid) : Grid :=
  (List.range (c.NX + 2)).foldl
    (fun g i0 => writeAt (writeAt g i0 0 c.bval_lower) i0 (c.NY + 1) c.bval_upper) u

/-- LOOP 8 (lines 151-165): compute `dudt[i][j]` for all interior points
`i = 1..NX`, `j = 1..NY`, reading only the (unmodified) `u` array. -/
def loop8 (lg : ℚ → ℚ) (c : Config) (u d : Grid) : Grid :=
  (List.range c.NX).foldl
    (fun g i0 => (List.range c.NY).foldl
      (fun g1 j0 => writeAt g1 (i0 + 1) (j0 + 1) (dudtAt lg c u (i0 + 1) (j0 + 1))) g) d

/-- LOOP 9 (lines 170-175): explicit Euler update
`u[i][j] = u[i][j] + dudt[i][j]*dt` over interior points, in source
iteration order, reading the evolving `u` array in place. -/
def loop9 (c : Config) (dtv : ℚ) (d u : Grid) : Grid :=
  (List.range c.NX).foldl
    (fun g i0 => (List.range c.NY).foldl
      (fun g1 j0 => writeAt g1 (i0 + 1) (j0 + 1)
        (g1 (i0 + 1) (j0 + 1) + d (i0 + 1) (j0 + 1) * dtv)) g) u

/-- One iteration of the time loop LOOP 5 (lines 131-176) acting on the
pair `(u, dudt)`: boundary passes, derivative pass, Euler update. -/
def step (lg : ℚ → ℚ) (c : Config) (s : Grid × Grid) : Grid × Grid :=
  (loop9 c (dt lg c) (loop8 lg c (loop7 c (loop6 c s.1)) s.2) (loop7 c (loop6 c s.1)),
   loop8 lg c (loop7 c (loop6 c s.1)) s.2)

/-- `m` iterations of the time loop. -/
def run (lg : ℚ → ℚ) (c : Config) : ℕ → Grid × Grid → Grid × Grid
  | 0, s => s
  | m + 1, s => run lg c m (step lg c s)

/-- LOOP 11 (lines 199-207): vertical average of row `i` — running sum
over `j = 0 .. NY+1` divided by `NY`. -/
def verticalAvg (c : Config) (u : Grid) (i : ℕ) : ℚ :=
  ((List.range (c.NY + 2)).foldl (fun s j0 => s + u i j0) 0) / (c.NY : ℚ)

/-- Pointwise characterization of what the two boundary passes
(LOOP 6 then LOOP 7) leave in the array; LOOP 7 ran last, so its
values win at the four corners. -/
def boundaryApply (c : Config) (u : Grid) : Grid := fun i j =>
  if j = 0 ∧ i < c.NX + 2 then c.bval_lower
  else if j = c.NY + 1 ∧ i < c.NX + 2 then c.bval_upper
  else if i = 0 ∧ j < c.NY + 2 then c.bval_left
  else if i = c.NX + 1 ∧ j < c.NY + 2 then c.bval_right
  else u i j

/-- Modelled from the spec: the boundary-condition contract of §4.4,
x-direction pass first, then y-direction pass (so the y-direction
Dirichlet values stand at the corners). -/
def applyBoundariesRef (c : Config) (u : Grid) : Grid := fun i j =>
  if j = 0 ∧ i < c.NX + 2 then c.bval_lower
  else if j = c.NY + 1 ∧ i < c.NX + 2 then c.bval_upper
  else if i = 0 ∧ j < c.NY + 2 then c.bval_left
  else if i = c.NX + 1 ∧ j < c.NY + 2 then c.bval_right
  else u i j

/-- Modelled from the spec: the reference Jacobi-style two-phase step of
§4.5 — apply boundaries, then compute every interior derivative
`-( v*(u[i][j]-u[i-1][j])/dx + vely*(u[i][j]-u[i][j-1])/dy )` with
`v = streamwiseVelocity(j*dy)` from the pre-update field, then advance
every interior point by explicit Euler. -/
def stepRef (lg : ℚ → ℚ) (c : Config) (u : Grid) : Grid := fun i j =>
  if 1 ≤ i ∧ i ≤ c.NX ∧ 1 ≤ j ∧ j ≤ c.NY then
    applyBoundariesRef c u i j +
      (-(streamwiseVelocity lg ((j : ℚ) * dy c)
          * (applyBoundariesRef c u i j - applyBoundariesRef c u (i - 1) j) / dx c
        + c.vely * (applyBoundariesRef c u i j - applyBoundariesRef c u i (j - 1)) / dy c))
        * dt lg c
  else applyBoundariesRef c u i j

/-- The all-zero grid (used to instantiate theorems at concrete inputs). -/
def gZero : Grid := fun _ _ => 0

/-- A constant-42 grid (used to instantiate theorems at concrete inputs). -/
def gConst : Grid := fun _ _ => 42

/-- A small configuration whose whole domain sits at `y ≤ 1` with zero
cross-stream velocity (used to instantiate theorems at concrete inputs). -/
def cSmall : Config where
  NX := 1
  NY := 1
  xmin := 0
  xmax := 1
  ymin := 0
  ymax := 1
  x0 := 0
  y0 := 0
  sigmax := 1
  sigmay := 1
  bval_left := 5
  bval_right := 0
  bval_lower := 0
  bval_upper := 0
  CFL := 0.9
  nsteps := 1
  velx := 1
  vely := 0

/-! ## Pointwise characterizations of the sequential loops -/

/-- Reading a grid after a single-cell write. -/
theorem writeAt_apply (g : Grid) (a b : ℕ) (v : ℚ) (i j : ℕ) :
    writeAt g a b v i j = if i = a ∧ j = b then v else g i j := rfl

/-- A row of writes whose values depend only on the written position:
the fold equals a pointwise update of the row. -/
theorem foldl_writeRow_fixed (w : ℕ → ℕ → ℚ) (r o : ℕ) (g0 : Grid) (n i j : ℕ) :
    ((List.range n).foldl (fun g j0 => writeAt g r (j0 + o) (w r (j0 + o))) g0) i j =
    if i = r ∧ o ≤ j ∧ j < n + o then w i j else g0 i j := by
  induction n with
  | zero =>
    simp only [List.range_zero, List.foldl_nil]
    rw [if_neg (by omega)]
  | succ n ih =>
    rw [List.range_succ, List.foldl_append, List.foldl_cons, List.foldl_nil,
      writeAt_apply, ih]
    by_cases h1 : i = r ∧ j = n + o
    · rw [if_pos h1, if_pos (by omega), h1.1, h1.2]
    · rw [if_neg h1]
      by_cases h2 : i = r ∧ o ≤ j ∧ j < n + o
      · rw [if_pos h2, if_pos (by omega)]
      · rw [if_neg h2, if_neg (by omega)]

/-- A full loop nest of writes whose values depend only on the written
position equals a pointwise update of the rectangle. -/
theorem foldl_writeGrid_fixed (w : ℕ → ℕ → ℚ) (o1 o2 m n : ℕ) (g0 : Grid) (i j : ℕ) :
    ((List.range m).foldl
      (fun g i0 => (List.range n).foldl
        (fun g1 j0 => writeAt g1 (i0 + o1) (j0 + o2) (w (i0 + o1) (j0 + o2))) g) g0) i j =
    if o1 ≤ i ∧ i < m + o1 ∧ o2 ≤ j ∧ j < n + o2 then w i j else g0 i j := by
  induction m with
  | zero =>
    simp only [List.range_zero, List.foldl_nil]
    rw [if_neg (by omega)]
  | succ m ih =>
    rw [List.range_succ, List.foldl_append, List.foldl_cons, List.foldl_nil,
      foldl_writeRow_fixed w (m + o1) o2 _ n i j, ih]
    by_cases h1 : i = m + o1 ∧ o2 ≤ j ∧ j < n + o2
    · rw [if_pos h1, if_pos (by omega)]
    · rw [if_neg h1]
      by_cases h2 : o1 ≤ i ∧ i < m + o1 ∧ o2 ≤ j ∧ j < n + o2
      · rw [if_pos h2, if_pos (by omega)]
      · rw [if_neg h2, if_neg (by omega)]

/-- A row of in-place updates `g[r][j0+1] += a r (j0+1)`: each cell is
written once, reading only its own pre-write value, so the sequential
fold equals the pointwise update. -/
theorem foldl_writeRow_self (a : ℕ → ℕ → ℚ) (r n : ℕ) (g0 : Grid) (i j : ℕ) :
    ((List.range n).foldl
      (fun g j0 => writeAt g r (j0 + 1) (g r (j0 + 1) + a r (j0 + 1))) g0) i j =
    if i = r ∧ 1 ≤ j ∧ j < n + 1 then g0 i j + a i j else g0 i j := by
  induction n generalizing i j with
  | zero =>
    simp only [List.range_zero, List.foldl_nil]
    rw [if_neg (by omega)]
  | succ n ih =>
    rw [List.range_succ, List.foldl_append, List.foldl_cons, List.foldl_nil,
      writeAt_apply, ih i j, ih r (n + 1),
      if_neg (show ¬(r = r ∧ 1 ≤ n + 1 ∧ n + 1 < n + 1) by omega)]
    by_cases h1 : i = r ∧ j = n + 1
    · rw [if_pos h1, if_pos (by omega), h1.1, h1.2]
    · rw [if_neg h1]
      by_cases h2 : i = r ∧ 1 ≤ j ∧ j < n + 1
      · rw [if_pos h2, if_pos (by omega)]
      · rw [if_neg h2, if_neg (by omega)]

/-- A loop nest of in-place updates `g[i][j] += a i j` over the interior
rectangle: sequential in-place execution equals the pointwise update. -/
theorem foldl_writeGrid_self (a : ℕ → ℕ → ℚ) (m n : ℕ) (g0 : Grid) (i j : ℕ) :
    ((List.range m).foldl
      (fun g i0 => (List.range n).foldl
        (fun g1 j0 => writeAt g1 (i0 + 1) (j0 + 1)
          (g1 (i0 + 1) (j0 + 1) + a (i0 + 1) (j0 + 1))) g) g0) i j =
    if 1 ≤ i ∧ i < m + 1 ∧ 1 ≤ j ∧ j < n + 1 then g0 i j + a i j else g0 i j := by
  induction m generalizing i j with
  | zero =>
    simp only [List.range_zero, List.foldl_nil]
    rw [if_neg (by omega)]
  | succ m ih =>
    rw [List.range_succ, List.foldl_append, List.foldl_cons, List.foldl_nil,
      foldl_writeRow_self a (m + 1) n _ i j, ih i j]
    by_cases h1 : i = m + 1 ∧ 1 ≤ j ∧ j < n + 1
    · rw [if_pos h1, if_neg (by omega), if_pos (by omega)]
    · rw [if_neg h1]
      by_cases h2 : 1 ≤ i ∧ i < m + 1 ∧ 1 ≤ j ∧ j < n + 1
      · rw [if_pos h2, if_pos (by omega)]
      · rw [if_neg h2, if_neg (by omega)]

/-- The LOOP 6 pattern: each iteration writes column `0` then column
`nx1` of row `j0`. -/
theorem loop6_core (bl br : ℚ) (nx1 : ℕ) (h : nx1 ≠ 0) (n : ℕ) (g0 : Grid) (i j : ℕ) :
    ((List.range n).foldl (fun g j0 => writeAt (writeAt g 0 j0 bl) nx1 j0 br) g0) i j =
    if i = 0 ∧ j < n then bl else if i = nx1 ∧ j < n then br else g0 i j := by
  induction n with
  | zero =>
    simp only [List.range_zero, List.foldl_nil]
    rw [if_neg (by omega), if_neg (by omega)]
  | succ n ih =>
    rw [List.range_succ, List.foldl_append, List.foldl_cons, List.foldl_nil,
      writeAt_apply, writeAt_apply, ih]
    by_cases h1 : i = nx1 ∧ j = n
    · rw [if_pos h1, if_neg (by omega), if_pos (by omega)]
    · rw [if_neg h1]
      by_cases h2 : i = 0 ∧ j = n
      · rw [if_pos h2, if_pos (by omega)]
      · rw [if_neg h2]
        by_cases h3 : i = 0 ∧ j < n
        · rw [if_pos h3, if_pos (by omega)]
        · rw [if_neg h3]
          by_cases h4 : i = nx1 ∧ j < n
          · rw [if_pos h4, if_neg (by omega), if_pos (by omega)]
          · rw [if_neg h4, if_neg (by omega), if_neg (by omega)]

/-- The LOOP 7 pattern: each iteration writes row `0` then row `ny1` of
column `i0`. -/
theorem loop7_core (bl bu : ℚ) (ny1 : ℕ) (h : ny1 ≠ 0) (m : ℕ) (g0 : Grid) (i j : ℕ) :
    ((List.range m).foldl (fun g i0 => writeAt (writeAt g i0 0 bl) i0 ny1 bu) g0) i j =
    if j = 0 ∧ i < m then bl else if j = ny1 ∧ i < m then bu else g0 i j := by
  induction m with
  | zero =>
    simp only [List.range_zero, List.foldl_nil]
    rw [if_neg (by omega), if_neg (by omega)]
  | succ m ih =>
    rw [List.range_succ, List.foldl_append, List.foldl_cons, List.foldl_nil,
      writeAt_apply, writeAt_apply, ih]
    by_cases h1 : i = m ∧ j = ny1
    · rw [if_pos h1, if_neg (by omega), if_pos (by omega)]
    · rw [if_neg h1]
      by_cases h2 : i = m ∧ j = 0
      · rw [if_pos h2, if_pos (by omega)]
      · rw [if_neg h2]
        by_cases h3 : j = 0 ∧ i < m
        · rw [if_pos h3, if_pos (by omega)]
        · rw [if_neg h3]
          by_cases h4 : j = ny1 ∧ i < m
          · rw [if_pos h4, if_neg (by omega), if_pos (by omega)]
          · rw [if_neg h4, if_neg (by omega), if_neg (by omega)]

/-- LOOP 6 read out pointwise. -/
theorem loop6_apply (c : Config) (u : Grid) (i j : ℕ) :
    loop6 c u i j =
    if i = 0 ∧ j < c.NY + 2 then c.bval_left
    else if i = c.NX + 1 ∧ j < c.NY + 2 then c.bval_right
    else u i j :=
  loop6_core c.bval_left c.bval_right (c.NX + 1) (by omega) (c.NY + 2) u i j

/-- LOOP 7 read out pointwise. -/
theorem loop7_apply (c : Config) (u : Grid) (i j : ℕ) :
    loop7 c u i j =
    if j = 0 ∧ i < c.NX + 2 then c.bval_lower
    else if j = c.NY + 1 ∧ i < c.NX + 2 then c.bval_upper
    else u i j :=
  loop7_core c.bval_lower c.bval_upper (c.NY + 1) (by omega) (c.NX + 2) u i j

/-- The two boundary passes together equal their pointwise
characterization `boundaryApply`. -/
theorem loop76_eq (c : Config) (u : Grid) :
    loop7 c (loop6 c u) = boundaryApply c u := by
  funext i j
  rw [loop7_apply, loop6_apply]
  rfl

/-- LOOP 8 read out pointwise: the derivative buffer holds
`dudtAt lg c u` on the interior, the previous contents elsewhere. -/
theorem loop8_apply (lg : ℚ → ℚ) (c : Config) (u d : Grid) (i j : ℕ) :
    loop8 lg c u d i j =
    if 1 ≤ i ∧ i < c.NX + 1 ∧ 1 ≤ j ∧ j < c.NY + 1 then dudtAt lg c u i j
    else d i j :=
  foldl_writeGrid_fixed (dudtAt lg c u) 1 1 c.NX c.NY d i j

/-- LOOP 9 read out pointwise: the sequential in-place Euler update
equals the pointwise update. -/
theorem loop9_apply (c : Config) (dtv : ℚ) (d u : Grid) (i j : ℕ) :
    loop9 c dtv d u i j =
    if 1 ≤ i ∧ i < c.NX + 1 ∧ 1 ≤ j ∧ j < c.NY + 1 then u i j + d i j * dtv
    else u i j :=
  foldl_writeGrid_self (fun p q => d p q * dtv) c.NX c.NY u i j

/-- LOOP 3 read out pointwise: every point of the full array holds the
Gaussian profile. -/
theorem loop3_apply (ex : ℚ → ℚ) (c : Config) (u : Grid) (i j : ℕ) :
    loop3 ex c u i j =
    if i < c.NX + 2 ∧ j < c.NY + 2 then gaussAt ex c i j else u i j := by
  have h : loop3 ex c u i j =
      if 0 ≤ i ∧ i < c.NX + 2 + 0 ∧ 0 ≤ j ∧ j < c.NY + 2 + 0 then gaussAt ex c i j
      else u i j :=
    foldl_writeGrid_fixed (gaussAt ex c) 0 0 (c.NX + 2) (c.NY + 2) u i j
  rw [h]
  by_cases h1 : i < c.NX + 2 ∧ j < c.NY + 2
  · rw [if_pos (by omega), if_pos h1]
  · rw [if_neg (by omega), if_neg h1]

/-- One full step of the time loop, read out pointwise on the `u`
component. -/
theorem step_fst_apply (lg : ℚ → ℚ) (c : Config) (s : Grid × Grid) (i j : ℕ) :
    (step lg c s).1 i j =
    if 1 ≤ i ∧ i < c.NX + 1 ∧ 1 ≤ j ∧ j < c.NY + 1 then
      boundaryApply c s.1 i j + dudtAt lg c (boundaryApply c s.1) i j * dt lg c
    else boundaryApply c s.1 i j := by
  show loop9 c (dt lg c) (loop8 lg c (loop7 c (loop6 c s.1)) s.2)
    (loop7 c (loop6 c s.1)) i j = _
  rw [loop76_eq, loop9_apply]
  by_cases h1 : 1 ≤ i ∧ i < c.NX + 1 ∧ 1 ≤ j ∧ j < c.NY + 1
  · rw [if_pos h1, if_pos h1, loop8_apply, if_pos h1]
  · rw [if_neg h1, if_neg h1]

/-- Unfolding one iteration of the time loop. -/
theorem run_succ (lg : ℚ → ℚ) (c : Config) (m : ℕ) (s : Grid × Grid) :
    run lg c (m + 1) s = run lg c m (step lg c s) := rfl

/-- Zero iterations of the time loop. -/
theorem run_zero (lg : ℚ → ℚ) (c : Config) (s : Grid × Grid) :
    run lg c 0 s = s := rfl

/-- The inlined branch of LOOP 8 computes exactly
`-(streamwiseVelocity(j*dy) * backward-x-difference / dx + vely *
backward-y-difference / dy)` (times `-1` written as in the source). -/
theorem dudtAt_eq_sv (lg : ℚ → ℚ) (c : Config) (u : Grid) (i j : ℕ) :
    dudtAt lg c u i j =
    -1 * (streamwiseVelocity lg ((j : ℚ) * dy c) * (u i j - u (i - 1) j) / dx c
      + c.vely * (u i j - u i (j - 1)) / dy c) := by
  unfold dudtAt streamwiseVelocity
  by_cases h : ((j : ℚ) * dy c) > 1
  · rw [if_pos h, if_pos h]
  · rw [if_neg h, if_neg h]

/-- A running sum over `List.range n` is the `Finset` sum. -/
theorem foldl_add_eq_sum (f : ℕ → ℚ) (n : ℕ) :
    (List.range n).foldl (fun s j0 => s + f j0) 0 = ∑ j in Finset.range n, f j := by
  induction n with
  | zero => simp
  | succ n ih =>
    rw [List.range_succ, List.foldl_append, List.foldl_cons, List.foldl_nil,
      ih, Finset.sum_range_succ]

/-- Element access in a mapped range list. -/
theorem getD_map_range :
    ∀ (n : ℕ) (f : ℕ → ℚ) (i : ℕ), i < n → ((List.range n).map f).getD i 0 = f i := by
  intro n
  induction n with
  | zero => intro f i h; omega
  | succ n ih =>
    intro f i h
    rw [List.range_succ_eq_map, List.map_cons]
    cases i with
    | zero => rw [List.getD_cons_zero]
    | succ i =>
      rw [List.getD_cons_succ, List.map_map]
      exact ih (f ∘ Nat.succ) i (by omega)

/-- The generated axis is strictly sorted whenever the spacing is
positive. -/
theorem generateAxis_sorted (N : ℕ) (mn mx : ℚ) (h : 0 < (mx - mn) / (N : ℚ)) :
    List.Sorted (fun a b : ℚ => a < b) (generateAxis N mn mx) := by
  unfold generateAxis
  rw [List.Sorted, List.pairwise_map]
  refine (List.pairwise_lt_range (N + 2)).imp ?_
  intro a b hab
  have hc : (a : ℚ) < b := by exact_mod_cast hab
  exact mul_lt_mul_of_pos_right (by linarith) h

/-! ## The claims -/

/-- Claim C3: `streamwiseVelocity(y)` returns exactly `0` when `y ≤ 1`
and exactly `(0.2/0.41)*ln(y/1.0)` when `y > 1`; at `y = 1` the zero
branch is taken. -/
theorem C3_streamwiseVelocity_branches (lg : ℚ → ℚ) (y : ℚ) :
    (y ≤ 1 → streamwiseVelocity lg y = 0) ∧
    (1 < y → streamwiseVelocity lg y = ((0.2 : ℚ) / 0.41) * lg (y / 1)) ∧
    streamwiseVelocity lg 1 = 0 := by
  unfold streamwiseVelocity
  refine ⟨fun h => ?_, fun h => ?_, ?_⟩
  · rw [if_neg (not_lt.mpr h)]
  · rw [if_pos h]
  · rw [if_neg (by norm_num)]

/-- Witness for C3 at `y = 1/2`. -/
theorem C3_streamwiseVelocity_branches_witness :
    streamwiseVelocity id (1 / 2) = 0 :=
  (C3_streamwiseVelocity_branches id (1 / 2)).1 (by norm_num)

/-- Claim C7: the generated axis has exactly `N+2` entries, entry `i`
equals `(i - 0.5) * d` with `d = (max - min)/N`, and under `0 < N` and
`min < max` the spacing is positive and the axis strictly increasing. -/
theorem C7_generateAxis_spec (N : ℕ) (mn mx : ℚ) (hN : 0 < N) (hlt : mn < mx) :
    (generateAxis N mn mx).length = N + 2 ∧
    (∀ i : ℕ, i < N + 2 →
      (generateAxis N mn mx).getD i 0 = ((i : ℚ) - 0.5) * ((mx - mn) / (N : ℚ))) ∧
    0 < (mx - mn) / (N : ℚ) ∧
    List.Sorted (fun a b : ℚ => a < b) (generateAxis N mn mx) := by
  have hd : 0 < (mx - mn) / (N : ℚ) := by
    apply div_pos (by linarith)
    exact_mod_cast hN
  refine ⟨?_, ?_, hd, generateAxis_sorted N mn mx hd⟩
  · unfold generateAxis
    rw [List.length_map, List.length_range]
  · intro i hi
    unfold generateAxis
    exact getD_map_range (N + 2) _ i hi

/-- Witness for C7 at `N = 2`, `min = 0`, `max = 1`. -/
theorem C7_generateAxis_spec_witness :
    (generateAxis 2 0 1).getD 1 0 = (((1 : ℕ) : ℚ) - 0.5) * ((1 - 0) / ((2 : ℕ) : ℚ)) :=
  (C7_generateAxis_spec 2 0 1 (by decide) (by norm_num)).2.1 1 (by decide)

/-- Claim C8: the vertical-average value of row `i` is the sum of
`u[i][j]` over the full range `j = 0 .. NY+1` (both ghost cells
included) divided by `NY` (not by `NY+2`). -/
theorem C8_vertical_average (c : Config) (u : Grid) (i : ℕ) :
    verticalAvg c u i = (∑ j in Finset.range (c.NY + 2), u i j) / (c.NY : ℚ) := by
  unfold verticalAvg
  rw [foldl_add_eq_sum (fun j0 => u i j0) (c.NY + 2)]

/-- Claim C9: the coordinate passed to the velocity profile in the
derivative pass is the raw `j * dy`, not the cell-centered
`y[j] = (j - 0.5) * dy`; it exceeds the axis value by exactly `dy/2`. -/
theorem C9_velocity_coordinate (lg : ℚ → ℚ) (c : Config) (u : Grid) (i j : ℕ) :
    dudtAt lg c u i j =
      -1 * (streamwiseVelocity lg ((j : ℚ) * dy c) * (u i j - u (i - 1) j) / dx c
        + c.vely * (u i j - u i (j - 1)) / dy c) ∧
    (j : ℚ) * dy c - ycoord c j = dy c / 2 ∧
    (0 < dy c → ycoord c j < (j : ℚ) * dy c) := by
  refine ⟨dudtAt_eq_sv lg c u i j, ?_, fun h => ?_⟩
  · unfold ycoord; ring
  · unfold ycoord
    exact mul_lt_mul_of_pos_right (by norm_num) h

/-- Witness for C9 at `j = 1` under the program configuration. -/
theorem C9_velocity_coordinate_witness :
    ycoord theConfig 1 < ((1 : ℕ) : ℚ) * dy theConfig :=
  (C9_velocity_coordinate id theConfig gZero 1 1).2.2 (by norm_num [dy, theConfig])

/-- Claim C1: the sequential in-place step (boundary passes, then
LOOP 8 computing every `dudt[i][j]` from the pre-update `u`, then
LOOP 9's Euler update) equals the reference Jacobi-style two-phase
step definition. -/
theorem C1_step_two_phase (lg : ℚ → ℚ) (c : Config) (s : Grid × Grid) :
    (step lg c s).1 = stepRef lg c s.1 := by
  funext i j
  rw [step_fst_apply]
  have hb : applyBoundariesRef c s.1 = boundaryApply c s.1 := by
    funext p q
    rfl
  unfold stepRef
  rw [hb]
  by_cases h1 : 1 ≤ i ∧ i ≤ c.NX ∧ 1 ≤ j ∧ j ≤ c.NY
  · rw [if_pos (by omega), if_pos h1, dudtAt_eq_sv]
    ring
  · rw [if_neg (by omega), if_neg h1]

/-- Claim C2: under the program configuration `dx = dy = 0.03`, and the
time step — computed once, from the proxy velocity
`(0.2/0.41)*ln(ymax/1.0)` — has the closed-form value
`(27/1000) / |(0.2/0.41)*ln 30|` (idealized exact arithmetic); `dt` is
a constant of the run, so it is the same at every step. -/
theorem C2_time_step (lg : ℚ → ℚ) :
    dx theConfig = 0.03 ∧ dy theConfig = 0.03 ∧
    dt lg theConfig = (27 / 1000) / |((0.2 : ℚ) / 0.41) * lg 30| := by
  refine ⟨by norm_num [dx, theConfig], by norm_num [dy, theConfig], ?_⟩
  unfold dt dx dy
  norm_num [theConfig]
  rw [div_div_eq_mul_div]
  norm_num

/-- Claim C5: after LOOP 3, every point of the full
`(NX+2) × (NY+2)` array (ghost cells included) holds the Gaussian of
the cell-centered coordinates. -/
theorem C5_initial_conditions (ex : ℚ → ℚ) (c : Config) (u : Grid) (i j : ℕ)
    (hi : i < c.NX + 2) (hj : j < c.NY + 2) :
    loop3 ex c u i j =
    ex (-1 * ((xcoord c i - c.x0) * (xcoord c i - c.x0) / (2 * (c.sigmax * c.sigmax))
      + (ycoord c j - c.y0) * (ycoord c j - c.y0) / (2 * (c.sigmay * c.sigmay)))) := by
  rw [loop3_apply, if_pos ⟨hi, hj⟩]
  rfl

/-- Witness for C5 at the corner ghost cell `(0,0)` of the program
grid, starting from a non-Gaussian array. -/
theorem C5_initial_conditions_witness :
    loop3 id theConfig gConst 0 0 =
    -1 * ((xcoord theConfig 0 - theConfig.x0) * (xcoord theConfig 0 - theConfig.x0)
        / (2 * (theConfig.sigmax * theConfig.sigmax))
      + (ycoord theConfig 0 - theConfig.y0) * (ycoord theConfig 0 - theConfig.y0)
        / (2 * (theConfig.sigmay * theConfig.sigmay))) :=
  C5_initial_conditions id theConfig gConst 0 0 (by decide) (by decide)

/-- Claim C10: the x-direction boundary pass (LOOP 6) runs before the
y-direction pass (LOOP 7) inside each step, so after boundary
application — and still after the full step, since the interior update
never writes ghost cells — all four corner ghost cells hold the
y-direction values `bval_lower` / `bval_upper`. -/
theorem C10_corner_ghost_cells (lg : ℚ → ℚ) (c : Config) (s : Grid × Grid) :
    loop7 c (loop6 c s.1) 0 0 = c.bval_lower ∧
    loop7 c (loop6 c s.1) 0 (c.NY + 1) = c.bval_upper ∧
    loop7 c (loop6 c s.1) (c.NX + 1) 0 = c.bval_lower ∧
    loop7 c (loop6 c s.1) (c.NX + 1) (c.NY + 1) = c.bval_upper ∧
    (step lg c s).1 0 0 = c.bval_lower ∧
    (step lg c s).1 0 (c.NY + 1) = c.bval_upper ∧
    (step lg c s).1 (c.NX + 1) 0 = c.bval_lower ∧
    (step lg c s).1 (c.NX + 1) (c.NY + 1) = c.bval_upper := by
  have hb : ∀ i j : ℕ,
      ((i = 0 ∨ i = c.NX + 1) ∧ (j = 0 ∨ j = c.NY + 1)) →
      boundaryApply c s.1 i j = (if j = 0 then c.bval_lower else c.bval_upper) := by
    intro i j hij
    simp only [boundaryApply]
    split_ifs <;> first | rfl | omega
  have hcorner : ∀ i j : ℕ,
      ((i = 0 ∨ i = c.NX + 1) ∧ (j = 0 ∨ j = c.NY + 1)) →
      (step lg c s).1 i j = (if j = 0 then c.bval_lower else c.bval_upper) := by
    intro i j hij
    rw [step_fst_apply, if_neg (by omega)]
    exact hb i j hij
  have h76 : ∀ i j : ℕ,
      ((i = 0 ∨ i = c.NX + 1) ∧ (j = 0 ∨ j = c.NY + 1)) →
      loop7 c (loop6 c s.1) i j = (if j = 0 then c.bval_lower else c.bval_upper) := by
    intro i j hij
    rw [loop76_eq]
    exact hb i j hij
  refine ⟨?_, ?_, ?_, ?_, ?_, ?_, ?_, ?_⟩
  · rw [h76 0 0 (by omega), if_pos rfl]
  · rw [h76 0 (c.NY + 1) (by omega), if_neg (by omega)]
  · rw [h76 (c.NX + 1) 0 (by omega), if_pos rfl]
  · rw [h76 (c.NX + 1) (c.NY + 1) (by omega), if_neg (by omega)]
  · rw [hcorner 0 0 (by omega), if_pos rfl]
  · rw [hcorner 0 (c.NY + 1) (by omega), if_neg (by omega)]
  · rw [hcorner (c.NX + 1) 0 (by omega), if_pos rfl]
  · rw [hcorner (c.NX + 1) (c.NY + 1) (by omega), if_neg (by omega)]

/-- Under the program configuration (all boundary values `0`), every
ghost cell of `u` is `0` after any positive number of steps. -/
theorem run_ghost (lg : ℚ → ℚ) (m : ℕ) (s : Grid × Grid) (i j : ℕ)
    (hij : (i = 0 ∨ i = theConfig.NX + 1) ∧ j < theConfig.NY + 2 ∨
      (j = 0 ∨ j = theConfig.NY + 1) ∧ i < theConfig.NX + 2) :
    (run lg theConfig (m + 1) s).1 i j = 0 := by
  induction m generalizing s with
  | zero =>
    rw [run_succ, run_zero, step_fst_apply, if_neg (by omega)]
    simp only [boundaryApply]
    split_ifs <;> first | rfl | omega
  | succ m ih =>
    rw [run_succ]
    exact ih (step lg theConfig s)

/-- Claim C4: after every completed step, the ghost cells hold the
Dirichlet boundary values — the interior update never writes ghost
cells, so the values set by the boundary phase survive to the end of
the step. -/
theorem C4_ghost_cells_after_step (lg : ℚ → ℚ) (s : Grid × Grid) (m : ℕ) :
    (∀ j : ℕ, j < theConfig.NY + 2 →
      (run lg theConfig (m + 1) s).1 0 j = theConfig.bval_left ∧
      (run lg theConfig (m + 1) s).1 (theConfig.NX + 1) j = theConfig.bval_right) ∧
    (∀ i : ℕ, i < theConfig.NX + 2 →
      (run lg theConfig (m + 1) s).1 i 0 = theConfig.bval_lower ∧
      (run lg theConfig (m + 1) s).1 i (theConfig.NY + 1) = theConfig.bval_upper) := by
  constructor
  · intro j hj
    exact ⟨run_ghost lg m s 0 j (Or.inl ⟨Or.inl rfl, hj⟩),
      run_ghost lg m s (theConfig.NX + 1) j (Or.inl ⟨Or.inr rfl, hj⟩)⟩
  · intro i hi
    exact ⟨run_ghost lg m s i 0 (Or.inr ⟨Or.inl rfl, hi⟩),
      run_ghost lg m s i (theConfig.NY + 1) (Or.inr ⟨Or.inr rfl, hi⟩)⟩

/-- Witness for C4: after one step from an arbitrary non-boundary
array, the left ghost cell of column 5 holds `bval_left`. -/
theorem C4_ghost_cells_after_step_witness :
    (run id theConfig 1 (gConst, gZero)).1 0 5 = theConfig.bval_left :=
  ((C4_ghost_cells_after_step id (gConst, gZero) 0).1 5 (by decide)).1

/-- Counterexample to Claim C6 as stated: for the small configuration
`cSmall` the whole domain sits at `y ≤ 1` (the only interior row uses
coordinate `1*dy = 1`, taking the zero branch) and `vely = 0`, yet one
step is not the identity on `u`: the boundary phase overwrites the
ghost cell `u[0][1]` with `bval_left = 5`, while the initial array was
identically `0`. -/
theorem C6_counterexample :
    cSmall.vely = 0 ∧
    streamwiseVelocity id (((1 : ℕ) : ℚ) * dy cSmall) = 0 ∧
    (run id cSmall 1 (gZero, gZero)).1 0 1 ≠ gZero 0 1 := by
  refine ⟨rfl, by norm_num [streamwiseVelocity, dy, cSmall], ?_⟩
  rw [run_succ, run_zero, step_fst_apply, if_neg (by omega)]
  simp only [boundaryApply, cSmall, gZero]
  norm_num

/-- Claim C6 (amended): if `vely = 0` and the streamwise velocity is
`0` at every coordinate `j*dy` used during stepping, then every
interior point of `u` is unchanged after any number of steps, and the
whole array (ghost cells included) no longer changes after the first
step; only the first step may still rewrite ghost cells to the
boundary values. -/
theorem C6_zero_velocity_frozen (lg : ℚ → ℚ) (c : Config) (s : Grid × Grid)
    (hv : c.vely = 0)
    (hs : ∀ j : ℕ, 1 ≤ j → j ≤ c.NY → streamwiseVelocity lg ((j : ℚ) * dy c) = 0) :
    (∀ m i j : ℕ, 1 ≤ i → i ≤ c.NX → 1 ≤ j → j ≤ c.NY →
      (run lg c m s).1 i j = s.1 i j) ∧
    (∀ m : ℕ, (run lg c (m + 1) s).1 = (run lg c 1 s).1) := by
  have hd : ∀ (u : Grid) (i j : ℕ), 1 ≤ j → j ≤ c.NY → dudtAt lg c u i j = 0 := by
    intro u i j h3 h4
    rw [dudtAt_eq_sv, hs j h3 h4, hv]
    ring
  have hstep_int : ∀ (t : Grid × Grid) (i j : ℕ), 1 ≤ i → i ≤ c.NX → 1 ≤ j → j ≤ c.NY →
      (step lg c t).1 i j = t.1 i j := by
    intro t i j h1 h2 h3 h4
    rw [step_fst_apply, if_pos (by omega), hd _ i j h3 h4, zero_mul, add_zero]
    simp only [boundaryApply]
    split_ifs <;> first | rfl | omega
  have hA : ∀ (m : ℕ) (t : Grid × Grid) (i j : ℕ), 1 ≤ i → i ≤ c.NX → 1 ≤ j → j ≤ c.NY →
      (run lg c m t).1 i j = t.1 i j := by
    intro m
    induction m with
    | zero => intro t i j _ _ _ _; rfl
    | succ m ih =>
      intro t i j h1 h2 h3 h4
      rw [run_succ, ih (step lg c t) i j h1 h2 h3 h4]
      exact hstep_int t i j h1 h2 h3 h4
  have hfixp : ∀ (t : Grid × Grid) (i j : ℕ),
      (step lg c (step lg c t)).1 i j = (step lg c t).1 i j := by
    intro t i j
    by_cases hin : 1 ≤ i ∧ i < c.NX + 1 ∧ 1 ≤ j ∧ j < c.NY + 1
    · rw [step_fst_apply, if_pos hin, hd _ i j (by omega) (by omega), zero_mul, add_zero]
      simp only [boundaryApply]
      split_ifs <;> first | rfl | omega
    · rw [step_fst_apply, if_neg hin, step_fst_apply, if_neg hin]
      simp only [boundaryApply]
      split_ifs with hc1 hc2 hc3 hc4 <;> try rfl
      rw [step_fst_apply, if_neg hin]
      simp only [boundaryApply]
      rw [if_neg hc1, if_neg hc2, if_neg hc3, if_neg hc4]
  have hrun : ∀ (m : ℕ) (t : Grid × Grid), (run lg c (m + 1) t).1 = (step lg c t).1 := by
    intro m
    induction m with
    | zero => intro t; rfl
    | succ m ih =>
      intro t
      rw [run_succ, ih (step lg c t)]
      funext i j
      exact hfixp t i j
  exact ⟨fun m i j h1 h2 h3 h4 => hA m s i j h1 h2 h3 h4,
    fun m => (hrun m s).trans (hrun 0 s).symm⟩

/-- Witness for the amended C6: three steps of the all-at-`y ≤ 1`,
zero-velocity configuration leave the interior point `(1,1)` at its
initial value. -/
theorem C6_zero_velocity_frozen_witness :
    (run id cSmall 3 (gZero, gZero)).1 1 1 = gZero 1 1 :=
  (C6_zero_velocity_frozen id cSmall (gZero, gZero) rfl
    (fun j h1 h2 => by
      have hNY : cSmall.NY = 1 := rfl
      have hj : j = 1 := by omega
      subst hj
      norm_num [streamwiseVelocity, dy, cSmall])).1 3 1 1
    (by decide) (by decide) (by decide) (by decide)

end Advection2D
